import Mathlib

/-!
Verification of the LC_Fetch collection scripts.

Shallow embedding of the data-shaping logic of the repository's Python
scripts:
* `user_school_leetcode_fetcher.py` — concurrent per-slug fetch of
  username/school (`fetch_user`, `process_csv`);
* `user_detail_leetcode_fetcher.py` — bulk per-row detail fetch merged
  back into the input rows (`process_csv_file`);
* `user_detail_by_id.py` / `user_school_leetcode_fetcher.py` —
  `create_session`, which configures urllib3 `Retry(total=3,
  backoff_factor=1)`;
* `leetcode_scraper.py` — sequential page scraping (`scrape_pages`).

Python dicts are embedded as insertion-ordered association lists with
distinct keys; network effects are parameters (an outcome per key, an
optional record per page); thread-pool completion order is an explicit
permutation of the submitted keys.
-/

/-- A Python dict row: insertion-ordered association list of
field name to scalar (stringly) value. -/
abbrev Rec := List (String × String)

/-- The list of field names of a row, in insertion order
(Python `dict.keys()`). -/
def recKeys (r : Rec) : List String := r.map Prod.fst

/-- Python `row.get(k, "")`. -/
def pyGet (r : Rec) (k : String) : String := (r.lookup k).getD ""

/-- Drop leading whitespace characters. -/
def dropWs : List Char → List Char
  | [] => []
  | c :: cs => if c.isWhitespace then dropWs cs else c :: cs

/-- Python `str.strip()` (for the standard whitespace characters):
remove leading and trailing whitespace. -/
def strip (s : String) : String :=
  String.mk (List.reverse (dropWs (List.reverse (dropWs s.data))))

/-- Code-point lexicographic comparison of character lists
(Python `str` comparison). -/
def chListLe : List Char → List Char → Bool
  | [], _ => true
  | _ :: _, [] => false
  | a :: as, b :: bs =>
    if a.toNat < b.toNat then true
    else if b.toNat < a.toNat then false
    else chListLe as bs

/-- Python string comparison `a <= b`: code-point lexicographic. -/
def strLe (a b : String) : Bool := chListLe a.data b.data

/-! ## user_school_leetcode_fetcher.py -/

/-- Outcome of the POST in `fetch_user`: the decoded `matchedUser`
payload (its two fields each possibly absent), a null/absent
`matchedUser` (user not found), or any raised exception. -/
inductive FetchOutcome
  | success (username school : Option String)
  | notFound
  | failed (msg : String)
deriving DecidableEq, Repr

/-- The dict `fetch_user` returns for one slug. -/
structure SchoolResult where
  user_slug : String
  username : String
  school : String
deriving DecidableEq, Repr

/-- Embeds `fetch_user(session, user_slug)`: on a found user, the slug with
`data.get("username", "")` and `profile.get("school", "")`; on a
missing user or any exception, the placeholder row carrying the slug
with empty username and school. -/
def fetch_user (user_slug : String) (outcome : FetchOutcome) : SchoolResult :=
  match outcome with
  | .success u s => ⟨user_slug, u.getD "", s.getD ""⟩
  | .notFound => ⟨user_slug, "", ""⟩
  | .failed _ => ⟨user_slug, "", ""⟩

/-- The collection loop of `process_csv`: one future per submitted slug,
results appended as `as_completed` yields them. `completed` is the
completion order, a permutation of the submitted slug list. -/
def fetch_all (outcome : String → FetchOutcome) (completed : List String) :
    List SchoolResult :=
  completed.map (fun s => fetch_user s (outcome s))

/-- The slug list `process_csv` submits: rows whose (untrimmed)
`user_slug` value is truthy, each then stripped —
`[r.get("user_slug", "").strip() for r in reader if r.get("user_slug")]`. -/
def schoolSlugs (rows : List Rec) : List String :=
  (rows.filter (fun r => pyGet r "user_slug" != "")).map
    (fun r => strip (pyGet r "user_slug"))

/-! ## create_session: urllib3 Retry(total=3, backoff_factor=1) -/

/-- urllib3 `Retry.get_backoff_time` as configured by `create_session`
(`backoff_factor` an integer number of seconds, `BACKOFF_MAX = 120`):
zero while at most one consecutive error has occurred, afterwards
`backoff_factor * 2 ^ (consecutive_errors - 1)` capped at 120. -/
def get_backoff_time (backoff_factor consecutive_errors : Nat) : Nat :=
  if consecutive_errors ≤ 1 then 0
  else min 120 (backoff_factor * 2 ^ (consecutive_errors - 1))

/-- The retry count both `create_session` functions configure:
`Retry(total=3, ...)`. -/
def create_session_total : Nat := 3

/-- The spec's `max_attempts` bound as realized by urllib3
`Retry(total=t)`: one initial attempt plus `t` retries. -/
def max_attempts (total : Nat) : Nat := total + 1

/-- Classified final result of a retried fetch. -/
inductive FetchResult
  | success (v : String)
  | failure (e : String)
deriving DecidableEq, Repr

/-- Observable trace of one run of the urllib3 retry loop. -/
structure RunStats where
  attempts : Nat
  sleeps : List Nat
  result : FetchResult
deriving DecidableEq, Repr

/-- The urllib3 retry loop configured by `create_session`: attempt the
operation; on success stop; on a retryable error, if retries remain,
sleep `get_backoff_time` (for the now-incremented consecutive-error
count) and retry, else raise `MaxRetryError` carrying the last error.
`op n` is the outcome of the `n`-th attempt, `attempt` the 1-based
number of the current attempt, `errors` the consecutive errors so far,
and the `Nat` fuel the remaining retries (`Retry.total`). -/
def retryRun (bf : Nat) (op : Nat → Except String String) :
    Nat → Nat → Nat → RunStats
  | attempt, _errors, 0 =>
    match op attempt with
    | .ok v => ⟨1, [], .success v⟩
    | .error e => ⟨1, [], .failure e⟩
  | attempt, errors, n + 1 =>
    match op attempt with
    | .ok v => ⟨1, [], .success v⟩
    | .error _ =>
      let s := get_backoff_time bf (errors + 1)
      let r := retryRun bf op (attempt + 1) (errors + 1) n
      ⟨r.attempts + 1, s :: r.sleeps, r.result⟩

/-- The backoff schedule: the sleeps taken between attempts of a run
that keeps failing, starting from `errors` consecutive errors, over
`n` remaining retries. -/
def backoffSleeps (bf : Nat) (errors : Nat) : Nat → List Nat
  | 0 => []
  | n + 1 =>
    get_backoff_time bf (errors + 1) :: backoffSleeps bf (errors + 1) n

/-! ## Schema merging (process_csv_file / save_to_csv) -/

/-- Append a key to the accumulator unless already present: the
membership behaviour of `set.update`, enumerated in first-seen order. -/
def addFirstSeen (acc : List String) (k : String) : List String :=
  if k ∈ acc then acc else acc ++ [k]

/-- All field names seen across the rows, first occurrence first:
one concrete duplicate-free enumeration of the Python set
`all_fieldnames` (a Python set is unordered; only membership matters
because the code sorts it before use). This enumeration also states
the spec's first-seen column order. -/
def firstSeenColumns (rs : List Rec) : List String :=
  rs.foldl (fun acc r => (recKeys r).foldl addFirstSeen acc) []

/-- Insert into a sorted list of strings, keeping it sorted. -/
def insertSorted (s : String) : List String → List String
  | [] => [s]
  | t :: ts => if strLe s t then s :: t :: ts else t :: insertSorted s ts

/-- Insertion sort on strings: Python `sorted` on distinct strings. -/
def sortStrings : List String → List String
  | [] => []
  | s :: ss => insertSorted s (sortStrings ss)

/-- Embeds `fieldnames = sorted(list(all_fieldnames))` of `process_csv_file`:
the union of all field names, sorted lexicographically. -/
def all_fieldnames (rs : List Rec) : List String :=
  sortStrings (firstSeenColumns rs)

/-! ## user_detail_leetcode_fetcher.py: process_csv_file -/

/-- Python `{**a, **b}`: keys of `a` in order, values overridden by `b`
where present, then keys of `b` not in `a` appended in `b`'s order. -/
def dictUnion (a b : Rec) : Rec :=
  a.map (fun kv =>
    match b.lookup kv.1 with
    | some v => (kv.1, v)
    | none => kv)
  ++ b.filter (fun kv => (a.lookup kv.1).isNone)

/-- Embeds `row.get("user_slug", "").strip()` of `process_csv_file`. -/
def rowSlug (row : Rec) : String := strip (pyGet row "user_slug")

/-- The per-row loop of `process_csv_file`: skip a row whose stripped
slug is empty; otherwise fetch (and parse) the user — on data, append
the input row merged with the parsed fields; on a missing user or a
request error (both return `None`), append the bare input row.
`fetcher slug = some parsed` abstracts
`parse_user_data(fetch_leetcode_user_data(slug))`. -/
def processRows (fetcher : String → Option Rec) : List Rec → List Rec
  | [] => []
  | row :: rest =>
    if rowSlug row = "" then processRows fetcher rest
    else
      match fetcher (rowSlug row) with
      | some parsed => dictUnion row parsed :: processRows fetcher rest
      | none => row :: processRows fetcher rest

/-- One output cell of `csv.DictWriter` (default `restval`): the row's
value at the column, or the empty string when the column is absent. -/
def csvCell (r : Rec) (k : String) : String := (r.lookup k).getD ""

/-! ## leetcode_scraper.py: scrape_pages -/

/-- Concatenate the decoded records of a list of pages in order;
a page whose fetch failed (`none`) contributes nothing. -/
def pagesRecords (fetch : Int → Option (List Rec)) : List Int → List Rec
  | [] => []
  | p :: ps => ((fetch p).getD []) ++ pagesRecords fetch ps

/-- The `for page in range(min_page, max_page + 1)` loop of
`scrape_pages`, instrumented with the trace of pages fetched:
`fetch p = none` models `fetch_page_data` returning `None` (bad JSON or
any exception), `some rs` the parsed rankings of the page (possibly
empty). The fuel is the number of remaining pages. -/
def scrapeLoop (fetch : Int → Option (List Rec)) (page : Int) :
    Nat → List Int × List Rec
  | 0 => ([], [])
  | n + 1 =>
    let rest := scrapeLoop fetch (page + 1) n
    (page :: rest.1, ((fetch page).getD []) ++ rest.2)

/-- Embeds `scrape_pages(min_page, max_page)`: the trace of fetched pages and
the accumulated records, over `range(min_page, max_page + 1)`. -/
def scrape_pages (fetch : Int → Option (List Rec)) (a b : Int) :
    List Int × List Rec :=
  scrapeLoop fetch a (b + 1 - a).toNat

/-- The `n` consecutive page indices starting at `a`. -/
def tracePagesAux (a : Int) : Nat → List Int
  | 0 => []
  | n + 1 => a :: tracePagesAux (a + 1) n

/-- The page index list `[a..b]`, for characterizing the trace. -/
def tracePages (a b : Int) : List Int :=
  tracePagesAux a (b + 1 - a).toNat

theorem fetch_user_user_slug (s : String) (o : FetchOutcome) :
    (fetch_user s o).user_slug = s := by
  cases o <;> rfl

/-- C1: every slug submitted to the thread pool yields exactly one
result (the keys of the collected results are a permutation of the
submitted slugs, whatever the completion order), and a slug whose
fetch hits a missing user or any exception still resolves, to the
placeholder carrying that slug with empty username and school. -/
theorem c1_every_key_resolves (slugs completed : List String)
    (outcome : String → FetchOutcome) (hperm : completed.Perm slugs) :
    ((fetch_all outcome completed).map SchoolResult.user_slug).Perm slugs ∧
    ∀ s, (outcome s = .notFound ∨ ∃ m, outcome s = .failed m) →
      fetch_user s (outcome s) = ⟨s, "", ""⟩ := by
  constructor
  · have hmap : (fetch_all outcome completed).map SchoolResult.user_slug
        = completed := by
      unfold fetch_all
      rw [List.map_map]
      have : (SchoolResult.user_slug ∘ fun s => fetch_user s (outcome s))
          = id := by
        funext s
        simp [Function.comp, fetch_user_user_slug]
      rw [this, List.map_id]
    rw [hmap]
    exact hperm
  · intro s hs
    rcases hs with h | ⟨m, h⟩ <;> rw [h] <;> rfl

/-- Witness for C1 at slugs `["a", "b"]` with completion order
`["b", "a"]` and every fetch raising. -/
theorem c1_witness :
    (["b", "a"] : List String).Perm ["a", "b"] ∧
    (((fetch_all (fun _ => .failed "boom") ["b", "a"]).map
        SchoolResult.user_slug).Perm ["a", "b"] ∧
      ∀ s, ((fun _ => FetchOutcome.failed "boom") s = .notFound ∨
          ∃ m, (fun _ => FetchOutcome.failed "boom") s = .failed m) →
        fetch_user s ((fun _ => FetchOutcome.failed "boom") s) = ⟨s, "", ""⟩) :=
  ⟨by decide,
    c1_every_key_resolves ["a", "b"] ["b", "a"] (fun _ => .failed "boom")
      (by decide)⟩

/-- C3 counterexample: submitting `["a", "b"]` with completion order
`["b", "a"]` (a legal permutation — `as_completed` yields futures in
completion order) produces a result list whose first entry carries key
"b", not the first submitted key "a": the collected list is not
aligned to the input key order. -/
theorem c3_counterexample :
    (["b", "a"] : List String).Perm ["a", "b"] ∧
    (fetch_all (fun _ => .notFound) ["b", "a"]).map SchoolResult.user_slug
      ≠ ["a", "b"] := by
  decide

/-- C3 amended: `process_csv` appends results in completion order, so
the collected list follows the completion order, not the input order;
it still holds exactly one result per submitted key (the result keys
are a permutation of the submitted slugs). -/
theorem c3_amended_completion_order (slugs completed : List String)
    (outcome : String → FetchOutcome) (hperm : completed.Perm slugs) :
    (fetch_all outcome completed).map SchoolResult.user_slug = completed ∧
    ((fetch_all outcome completed).map SchoolResult.user_slug).Perm slugs := by
  have hmap : (fetch_all outcome completed).map SchoolResult.user_slug
      = completed := by
    unfold fetch_all
    rw [List.map_map]
    have : (SchoolResult.user_slug ∘ fun s => fetch_user s (outcome s))
        = id := by
      funext s
      simp [Function.comp, fetch_user_user_slug]
    rw [this, List.map_id]
  refine ⟨hmap, ?_⟩
  rw [hmap]
  exact hperm

/-- Witness for the amended C3 at slugs `["a", "b"]`, completion order
`["b", "a"]`. -/
theorem c3_amended_witness :
    (["b", "a"] : List String).Perm ["a", "b"] ∧
    ((fetch_all (fun _ => .notFound) ["b", "a"]).map SchoolResult.user_slug
        = ["b", "a"] ∧
      ((fetch_all (fun _ => .notFound) ["b", "a"]).map
          SchoolResult.user_slug).Perm ["a", "b"]) :=
  ⟨by decide,
    c3_amended_completion_order ["a", "b"] ["b", "a"] (fun _ => .notFound)
      (by decide)⟩

theorem chListLe_total (as bs : List Char) :
    chListLe as bs = true ∨ chListLe bs as = true := by
  induction as generalizing bs with
  | nil => exact Or.inl rfl
  | cons a as ih =>
    cases bs with
    | nil => exact Or.inr rfl
    | cons b bs =>
      by_cases hab : a.toNat < b.toNat
      · have hba : ¬ b.toNat < a.toNat := by omega
        simp [chListLe, hab]
      · by_cases hba : b.toNat < a.toNat
        · simp [chListLe, hab, hba]
        · simp only [chListLe, if_neg hab, if_neg hba]
          exact ih bs

theorem chListLe_trans (as bs cs : List Char)
    (h1 : chListLe as bs = true) (h2 : chListLe bs cs = true) :
    chListLe as cs = true := by
  induction as generalizing bs cs with
  | nil => rfl
  | cons a as ih =>
    cases bs with
    | nil => simp [chListLe] at h1
    | cons b bs =>
      cases cs with
      | nil => simp [chListLe] at h2
      | cons c cs =>
        simp only [chListLe] at h1 h2 ⊢
        by_cases hab : a.toNat < b.toNat
        · by_cases hbc : b.toNat < c.toNat
          · have : a.toNat < c.toNat := by omega
            simp [this]
          · rw [if_neg hbc] at h2
            by_cases hcb : c.toNat < b.toNat
            · simp [hcb] at h2
            · have : a.toNat < c.toNat := by omega
              simp [this]
        · rw [if_neg hab] at h1
          by_cases hba : b.toNat < a.toNat
          · simp [hba] at h1
          · by_cases hbc : b.toNat < c.toNat
            · have : a.toNat < c.toNat := by omega
              simp [this]
            · rw [if_neg hba] at h1
              rw [if_neg hbc] at h2
              by_cases hcb : c.toNat < b.toNat
              · simp [hcb] at h2
              · rw [if_neg hcb] at h2
                have hac : ¬ a.toNat < c.toNat := by omega
                have hca : ¬ c.toNat < a.toNat := by omega
                rw [if_neg hac, if_neg hca]
                exact ih bs cs h1 h2

theorem strLe_total (a b : String) :
    strLe a b = true ∨ strLe b a = true :=
  chListLe_total a.data b.data

theorem strLe_trans (a b c : String) (h1 : strLe a b = true)
    (h2 : strLe b c = true) : strLe a c = true :=
  chListLe_trans a.data b.data c.data h1 h2

theorem mem_insertSorted (a s : String) (l : List String) :
    a ∈ insertSorted s l ↔ a = s ∨ a ∈ l := by
  induction l with
  | nil => simp [insertSorted]
  | cons t ts ih =>
    unfold insertSorted
    by_cases h : strLe s t
    · simp [h]
    · simp only [if_neg h, Bool.false_eq_true, List.mem_cons, ih]
      tauto

theorem pairwise_insertSorted (s : String) (l : List String)
    (hl : l.Pairwise (strLe · · = true)) :
    (insertSorted s l).Pairwise (strLe · · = true) := by
  induction l with
  | nil => simp [insertSorted]
  | cons t ts ih =>
    rw [List.pairwise_cons] at hl
    unfold insertSorted
    by_cases h : strLe s t
    · rw [if_pos h]
      refine List.pairwise_cons.mpr ⟨?_, List.pairwise_cons.mpr hl⟩
      intro b hb
      rcases List.mem_cons.mp hb with rfl | hb
      · exact h
      · exact strLe_trans s t b h (hl.1 b hb)
    · rw [if_neg h]
      refine List.pairwise_cons.mpr ⟨?_, ih hl.2⟩
      intro b hb
      rcases (mem_insertSorted b s ts).mp hb with hbs | hb
      · rw [hbs]
        rcases strLe_total s t with hst | hts
        · exact absurd hst h
        · exact hts
      · exact hl.1 b hb

theorem mem_sortStrings (a : String) (l : List String) :
    a ∈ sortStrings l ↔ a ∈ l := by
  induction l with
  | nil => simp [sortStrings]
  | cons s ss ih =>
    unfold sortStrings
    rw [mem_insertSorted, ih, List.mem_cons]

theorem pairwise_sortStrings (l : List String) :
    (sortStrings l).Pairwise (strLe · · = true) := by
  induction l with
  | nil => simp [sortStrings]
  | cons s ss ih => exact pairwise_insertSorted s _ ih

theorem mem_addFirstSeen (a k : String) (acc : List String) :
    a ∈ addFirstSeen acc k ↔ a ∈ acc ∨ a = k := by
  unfold addFirstSeen
  by_cases h : k ∈ acc
  · simp only [if_pos h]
    constructor
    · exact Or.inl
    · rintro (ha | rfl)
      · exact ha
      · exact h
  · simp [if_neg h]

theorem mem_foldl_addFirstSeen (a : String) (ks acc : List String) :
    a ∈ ks.foldl addFirstSeen acc ↔ a ∈ acc ∨ a ∈ ks := by
  induction ks generalizing acc with
  | nil => simp
  | cons k ks ih =>
    rw [List.foldl_cons, ih, mem_addFirstSeen, List.mem_cons]
    tauto

theorem mem_firstSeenColumns (a : String) (rs : List Rec) :
    a ∈ firstSeenColumns rs ↔ ∃ r ∈ rs, a ∈ recKeys r := by
  unfold firstSeenColumns
  suffices h : ∀ acc : List String,
      a ∈ rs.foldl (fun acc r => (recKeys r).foldl addFirstSeen acc) acc ↔
        a ∈ acc ∨ ∃ r ∈ rs, a ∈ recKeys r by
    rw [h []]
    simp
  induction rs with
  | nil => simp
  | cons r rs ih =>
    intro acc
    rw [List.foldl_cons, ih, mem_foldl_addFirstSeen]
    simp only [List.mem_cons]
    constructor
    · rintro ((h | h) | ⟨r2, h2, h3⟩)
      · exact Or.inl h
      · exact Or.inr ⟨r, Or.inl rfl, h⟩
      · exact Or.inr ⟨r2, Or.inr h2, h3⟩
    · rintro (h | ⟨r2, rfl | h2, h3⟩)
      · exact Or.inl (Or.inl h)
      · exact Or.inl (Or.inr h3)
      · exact Or.inr ⟨r2, h2, h3⟩

/-- C2 counterexample: for the record sequence `[{b: 1}, {a: 2}]`, the
first-seen column order is `["b", "a"]`, but the code computes
`sorted(all_fieldnames) = ["a", "b"]` — lexicographic, not first-seen
order. -/
theorem c2_counterexample :
    firstSeenColumns [[("b", "1")], [("a", "2")]] = ["b", "a"] ∧
    all_fieldnames [[("b", "1")], [("a", "2")]] = ["a", "b"] ∧
    (["a", "b"] : List String) ≠ ["b", "a"] := by
  decide

/-- C2 amended: the output column list is the union of every field
name seen across all records — a name is a column exactly when some
record carries it, and no column is removed when more records are
appended — but ordered lexicographically ascending (Python `sorted`),
not by first occurrence. -/
theorem c2_amended_sorted_union (rs : List Rec) :
    (∀ k, k ∈ all_fieldnames rs ↔ ∃ r ∈ rs, k ∈ recKeys r) ∧
    (all_fieldnames rs).Pairwise (strLe · · = true) ∧
    ∀ more k, k ∈ all_fieldnames rs → k ∈ all_fieldnames (rs ++ more) := by
  refine ⟨?_, pairwise_sortStrings _, ?_⟩
  · intro k
    rw [all_fieldnames, mem_sortStrings, mem_firstSeenColumns]
  · intro more k hk
    rw [all_fieldnames, mem_sortStrings, mem_firstSeenColumns] at hk ⊢
    rcases hk with ⟨r, hr, hkr⟩
    exact ⟨r, List.mem_append_left more hr, hkr⟩

theorem retryRun_always_fails (bf : Nat) (op : Nat → Except String String)
    (e : Nat → String) (hop : ∀ i, op i = .error (e i)) :
    ∀ (n attempt errors : Nat),
      (retryRun bf op attempt errors n).attempts = n + 1 ∧
      (retryRun bf op attempt errors n).result = .failure (e (attempt + n)) := by
  intro n
  induction n with
  | zero =>
    intro attempt errors
    simp [retryRun, hop attempt]
  | succ n ih =>
    intro attempt errors
    have hr := ih (attempt + 1) (errors + 1)
    constructor
    · simp [retryRun, hop attempt, hr.1]
    · simp only [retryRun, hop attempt]
      have harith : attempt + 1 + n = attempt + (n + 1) := by omega
      simp only [hr.2, harith]

theorem retryRun_sleeps (bf : Nat) (op : Nat → Except String String)
    (e : Nat → String) (hop : ∀ i, op i = .error (e i)) :
    ∀ (n attempt errors : Nat),
      (retryRun bf op attempt errors n).sleeps = backoffSleeps bf errors n := by
  intro n
  induction n with
  | zero =>
    intro attempt errors
    simp [retryRun, backoffSleeps, hop attempt]
  | succ n ih =>
    intro attempt errors
    simp [retryRun, backoffSleeps, hop attempt, ih (attempt + 1) (errors + 1)]

/-- C9: an operation failing with a retryable error on every attempt is
attempted exactly `max_attempts total = total + 1` times (one initial
attempt plus the `total` retries urllib3 `Retry(total)` grants), then
the run yields Failure carrying the error of the last attempt. -/
theorem c9_retry_bound (bf total : Nat) (op : Nat → Except String String)
    (e : Nat → String) (hop : ∀ i, op i = .error (e i)) :
    (retryRun bf op 1 0 total).attempts = max_attempts total ∧
    (retryRun bf op 1 0 total).result = .failure (e (max_attempts total)) := by
  have h := retryRun_always_fails bf op e hop total 1 0
  have harith : 1 + total = max_attempts total := by
    rw [max_attempts]
    omega
  refine ⟨?_, ?_⟩
  · rw [h.1, max_attempts]
  · rw [h.2, harith]

/-- Witness for C9 at the `create_session` configuration
(`total = 3`), with every attempt failing. -/
theorem c9_witness :
    (∀ i : Nat, (fun _ : Nat => (Except.error "timeout" : Except String String)) i
      = .error ((fun _ : Nat => "timeout") i)) ∧
    ((retryRun 1 (fun _ => .error "timeout") 1 0 create_session_total).attempts
        = max_attempts create_session_total ∧
      (retryRun 1 (fun _ => .error "timeout") 1 0 create_session_total).result
        = .failure ((fun _ : Nat => "timeout") (max_attempts create_session_total))) :=
  ⟨fun _ => rfl,
    c9_retry_bound 1 create_session_total (fun _ => .error "timeout")
      (fun _ => "timeout") (fun _ => rfl)⟩

/-- C4 counterexample: with `create_session`'s `backoff_factor = 1`, the
sleep after the first retryable failure is 0 seconds, not
`backoff_base * 1 = 1`, and the sleep after the third consecutive
failure is `1 * 2 ^ 2 = 4` seconds, not `backoff_base * 3 = 3`: the
urllib3 schedule is not the claimed linear one. -/
theorem c4_counterexample :
    get_backoff_time 1 1 = 0 ∧ (0 : Nat) ≠ 1 * 1 ∧
    get_backoff_time 1 3 = 4 ∧ (4 : Nat) ≠ 1 * 3 := by
  decide

/-- C4 amended: between attempts the policy sleeps urllib3's
`get_backoff_time` of the consecutive-error count — zero after the
first failure, then `backoff_factor * 2 ^ (errors - 1)` capped at 120,
a doubling (exponential), not linear, schedule; under `create_session`'s
configuration (`backoff_factor = 1`, `total = 3`) an always-failing
fetch sleeps exactly 0, 2 and 4 seconds between its four attempts. -/
theorem c4_amended_exponential_backoff (bf total : Nat)
    (op : Nat → Except String String) (e : Nat → String)
    (hop : ∀ i, op i = .error (e i)) :
    (retryRun bf op 1 0 total).sleeps = backoffSleeps bf 0 total ∧
    (∀ k, 2 ≤ k → bf * 2 ^ k ≤ 120 →
      get_backoff_time bf (k + 1) = 2 * get_backoff_time bf k) ∧
    (retryRun 1 op 1 0 create_session_total).sleeps = [0, 2, 4] := by
  refine ⟨retryRun_sleeps bf op e hop total 1 0, ?_, ?_⟩
  · intro k hk hcap
    have h1 : ¬ (k + 1 ≤ 1) := by omega
    have h2 : ¬ (k ≤ 1) := by omega
    unfold get_backoff_time
    rw [if_neg h1, if_neg h2]
    have hpow : 2 * 2 ^ (k - 1) = 2 ^ k := by
      conv_rhs => rw [show k = (k - 1) + 1 by omega]
      rw [pow_succ]
      omega
    have hstep : 2 * (bf * 2 ^ (k - 1)) = bf * 2 ^ k := by
      rw [Nat.mul_left_comm, hpow]
    have hle : bf * 2 ^ (k - 1) ≤ 120 := by
      refine le_trans ?_ hcap
      exact Nat.mul_le_mul_left bf (Nat.pow_le_pow_right (by omega) (by omega))
    rw [Nat.add_sub_cancel, Nat.min_eq_right hcap, Nat.min_eq_right hle, hstep]
  · rw [retryRun_sleeps 1 op e hop create_session_total 1 0]
    decide

/-- Witness for the amended C4 at the `create_session` configuration:
the three inter-attempt sleeps of an always-failing fetch are 0, 2 and
4 seconds. -/
theorem c4_amended_witness :
    (∀ i : Nat, (fun _ : Nat => (Except.error "503" : Except String String)) i
      = .error ((fun _ : Nat => "503") i)) ∧
    ((retryRun 1 (fun _ => .error "503") 1 0 3).sleeps = backoffSleeps 1 0 3 ∧
      (∀ k, 2 ≤ k → 1 * 2 ^ k ≤ 120 →
        get_backoff_time 1 (k + 1) = 2 * get_backoff_time 1 k) ∧
      (retryRun 1 (fun _ => .error "503") 1 0 create_session_total).sleeps
        = [0, 2, 4]) :=
  ⟨fun _ => rfl,
    c4_amended_exponential_backoff 1 3 (fun _ => .error "503")
      (fun _ => "503") (fun _ => rfl)⟩

theorem lookup_eq_none_of_not_mem_keys (r : Rec) (k : String)
    (h : k ∉ recKeys r) : r.lookup k = none := by
  induction r with
  | nil => rfl
  | cons kv t ih =>
    simp only [recKeys, List.map_cons, List.mem_cons] at h
    push_neg at h
    rw [List.lookup_cons]
    have hbeq : (k == kv.1) = false := beq_eq_false_iff_ne.mpr h.1
    rw [hbeq]
    exact ih (by simpa [recKeys] using h.2)

theorem mem_processRows_of_failed (fetcher : String → Option Rec)
    (rows : List Rec) (row : Rec) (hmem : row ∈ rows)
    (hslug : rowSlug row ≠ "") (hfail : fetcher (rowSlug row) = none) :
    row ∈ processRows fetcher rows := by
  induction rows with
  | nil => cases hmem
  | cons r rest ih =>
    rcases List.mem_cons.mp hmem with rfl | hmem2
    · rw [processRows, if_neg hslug, hfail]
      exact List.mem_cons_self row _
    · rw [processRows]
      by_cases h : rowSlug r = ""
      · rw [if_pos h]
        exact ih hmem2
      · rw [if_neg h]
        cases hf : fetcher (rowSlug r) with
        | some parsed => exact List.mem_cons_of_mem _ (ih hmem2)
        | none => exact List.mem_cons_of_mem _ (ih hmem2)

/-- C5: the merge of `process_csv_file` is a left join on the slug: an
input row with a non-empty slug whose fetch fails or finds no user
(both return `None`) is still present, unchanged, in the output row
list, and when the output CSV is written, every column the row lacks —
in particular every fetched-field column — is filled with the empty
placeholder (`DictWriter`'s default `restval`). No input row is
dropped because its fetch failed. -/
theorem c5_left_join_preserves_failed_rows (fetcher : String → Option Rec)
    (rows : List Rec) (row : Rec) (hmem : row ∈ rows)
    (hslug : rowSlug row ≠ "") (hfail : fetcher (rowSlug row) = none) :
    row ∈ processRows fetcher rows ∧
    ∀ k, k ∉ recKeys row → csvCell row k = "" := by
  refine ⟨mem_processRows_of_failed fetcher rows row hmem hslug hfail, ?_⟩
  intro k hk
  rw [csvCell, lookup_eq_none_of_not_mem_keys row k hk]
  rfl

/-- Witness for C5: a one-row input whose fetch fails. -/
theorem c5_witness :
    ([("user_slug", "alice")] ∈ ([[("user_slug", "alice")]] : List Rec)) ∧
    rowSlug [("user_slug", "alice")] ≠ "" ∧
    (fun _ : String => (none : Option Rec)) (rowSlug [("user_slug", "alice")])
      = none ∧
    ([("user_slug", "alice")]
        ∈ processRows (fun _ => none) [[("user_slug", "alice")]] ∧
      ∀ k, k ∉ recKeys [("user_slug", "alice")] →
        csvCell [("user_slug", "alice")] k = "") :=
  ⟨by decide, by decide, rfl,
    c5_left_join_preserves_failed_rows (fun _ => none)
      [[("user_slug", "alice")]] [("user_slug", "alice")]
      (by decide) (by decide) rfl⟩

/-- C10 counterexample: a row whose `user_slug` is the single space
`" "` (whitespace-only) is NOT skipped by the school fetcher: its
untrimmed value is truthy, so it passes the filter, is stripped to the
empty string, is submitted for fetching, and contributes an output
row — while the detail fetcher's per-row check does skip it (its
stripped slug is empty). -/
theorem c10_counterexample :
    schoolSlugs [[("user_slug", " ")]] = [""] ∧
    (fetch_all (fun _ => .notFound) (schoolSlugs [[("user_slug", " ")]])).length
      = 1 ∧
    rowSlug [("user_slug", " ")] = "" ∧
    processRows (fun _ => none) [[("user_slug", " ")]] = [] := by
  decide

/-- C10 amended: the detail fetcher (`process_csv_file`) skips exactly
the rows whose `user_slug` is missing, empty or whitespace-only — its
output rows are the rows with a non-empty stripped slug; the school
fetcher (`process_csv`) instead filters on the untrimmed value, so it
skips only rows whose `user_slug` is missing or the empty string, and
a whitespace-only slug is still stripped, fetched and contributes an
output row. -/
theorem c10_amended_skip_rules (fetcher : String → Option Rec)
    (rows : List Rec) :
    (processRows fetcher rows).length
        = (rows.filter (fun r => rowSlug r != "")).length ∧
    (schoolSlugs rows).length
        = (rows.filter (fun r => pyGet r "user_slug" != "")).length := by
  constructor
  · induction rows with
    | nil => rfl
    | cons row rest ih =>
      rw [processRows]
      by_cases h : rowSlug row = ""
      · rw [if_pos h]
        simp [List.filter_cons, h, ih]
      · rw [if_neg h]
        cases hf : fetcher (rowSlug row) with
        | some parsed => simp [List.filter_cons, h, ih]
        | none => simp [List.filter_cons, h, ih]
  · rw [schoolSlugs, List.length_map]

theorem scrapeLoop_trace (fetch : Int → Option (List Rec)) :
    ∀ (n : Nat) (page : Int),
      (scrapeLoop fetch page n).1 = tracePagesAux page n := by
  intro n
  induction n with
  | zero => intro page; rfl
  | succ n ih =>
    intro page
    simp [scrapeLoop, tracePagesAux, ih (page + 1)]

theorem scrapeLoop_records (fetch : Int → Option (List Rec)) :
    ∀ (n : Nat) (page : Int),
      (scrapeLoop fetch page n).2
        = pagesRecords fetch (scrapeLoop fetch page n).1 := by
  intro n
  induction n with
  | zero => intro page; rfl
  | succ n ih =>
    intro page
    simp [scrapeLoop, pagesRecords, ih (page + 1)]

theorem mem_tracePagesAux (p : Int) :
    ∀ (n : Nat) (a : Int), p ∈ tracePagesAux a n ↔ a ≤ p ∧ p < a + n := by
  intro n
  induction n with
  | zero =>
    intro a
    simp [tracePagesAux]
  | succ n ih =>
    intro a
    simp only [tracePagesAux, List.mem_cons, ih (a + 1)]
    constructor
    · rintro (rfl | ⟨h1, h2⟩) <;> omega
    · rintro ⟨h1, h2⟩
      by_cases hpa : p = a
      · exact Or.inl hpa
      · exact Or.inr ⟨by omega, by omega⟩

theorem nodup_tracePagesAux :
    ∀ (n : Nat) (a : Int), (tracePagesAux a n).Nodup := by
  intro n
  induction n with
  | zero => intro a; exact List.nodup_nil
  | succ n ih =>
    intro a
    refine List.nodup_cons.mpr ⟨?_, ih (a + 1)⟩
    rw [mem_tracePagesAux]
    omega

theorem chain_tracePagesAux :
    ∀ (n : Nat) (a : Int), (tracePagesAux a n).Chain' (· < ·) := by
  intro n
  induction n with
  | zero => intro a; exact List.chain'_nil
  | succ n ih =>
    intro a
    rw [tracePagesAux]
    refine List.chain'_cons'.mpr ⟨?_, ih (a + 1)⟩
    intro y hy
    cases n with
    | zero => simp [tracePagesAux] at hy
    | succ m =>
      simp only [tracePagesAux, List.head?_cons, Option.mem_def,
        Option.some.injEq] at hy
      omega

theorem count_tracePages (fetch : Int → Option (List Rec)) (a b p : Int) :
    ((scrape_pages fetch a b).1.count p)
      = if a ≤ p ∧ p ≤ b then 1 else 0 := by
  rw [scrape_pages, scrapeLoop_trace fetch _ a]
  by_cases h : a ≤ p ∧ p ≤ b
  · rw [if_pos h]
    refine List.count_eq_one_of_mem (nodup_tracePagesAux _ a) ?_
    rw [mem_tracePagesAux]
    omega
  · rw [if_neg h]
    refine List.count_eq_zero.mpr ?_
    rw [mem_tracePagesAux]
    omega

/-- C6: for a valid range (`min_page ≤ max_page`), `scrape_pages`
fetches every page of the inclusive range exactly once and no page
outside it, in strictly ascending order, and its accumulated output is
the concatenation of the per-page record lists in that page order —
the loop runs to `max_page` with no early stop on an empty page (the
trace does not depend on the fetch results at all). -/
theorem c6_full_range_in_order (fetch : Int → Option (List Rec))
    (a b : Int) (_h : a ≤ b) :
    (∀ p : Int, ((scrape_pages fetch a b).1.count p)
        = if a ≤ p ∧ p ≤ b then 1 else 0) ∧
    (scrape_pages fetch a b).1.Chain' (· < ·) ∧
    (scrape_pages fetch a b).2
      = pagesRecords fetch (scrape_pages fetch a b).1 := by
  refine ⟨fun p => count_tracePages fetch a b p, ?_, ?_⟩
  · rw [scrape_pages, scrapeLoop_trace fetch _ a]
    exact chain_tracePagesAux _ a
  · rw [scrape_pages]
    exact scrapeLoop_records fetch _ a

/-- Witness for C6 over pages 1–3, with page 2 decoding to no users. -/
theorem c6_witness :
    ((1 : Int) ≤ 3) ∧
    ((∀ p : Int,
        ((scrape_pages (fun p => if p = 2 then some [] else some [[("rank", "1")]])
            1 3).1.count p)
          = if 1 ≤ p ∧ p ≤ 3 then 1 else 0) ∧
      (scrape_pages (fun p => if p = 2 then some [] else some [[("rank", "1")]])
          1 3).1.Chain' (· < ·) ∧
      (scrape_pages (fun p => if p = 2 then some [] else some [[("rank", "1")]])
          1 3).2
        = pagesRecords (fun p => if p = 2 then some [] else some [[("rank", "1")]])
            (scrape_pages (fun p => if p = 2 then some [] else some [[("rank", "1")]])
              1 3).1) :=
  ⟨by decide,
    c6_full_range_in_order (fun p => if p = 2 then some [] else some [[("rank", "1")]])
      1 3 (by decide)⟩

theorem pagesRecords_append (fetch : Int → Option (List Rec))
    (l1 l2 : List Int) :
    pagesRecords fetch (l1 ++ l2)
      = pagesRecords fetch l1 ++ pagesRecords fetch l2 := by
  induction l1 with
  | nil => rfl
  | cons p ps ih => simp [pagesRecords, ih]

theorem tracePagesAux_split :
    ∀ (k n : Nat) (a : Int), k < n →
      tracePagesAux a n
        = tracePagesAux a k
          ++ (a + (k : Int)) :: tracePagesAux (a + (k : Int) + 1) (n - k - 1) := by
  intro k
  induction k with
  | zero =>
    intro n a hk
    cases n with
    | zero => omega
    | succ m => simp [tracePagesAux]
  | succ k ih =>
    intro n a hk
    cases n with
    | zero => omega
    | succ m =>
      have hrec := ih m (a + 1) (by omega)
      have hm : m + 1 - (k + 1) - 1 = m - k - 1 := by omega
      have hc1 : a + ((k + 1 : Nat) : Int) = a + 1 + (k : Int) := by
        push_cast
        ring
      calc tracePagesAux a (m + 1) = a :: tracePagesAux (a + 1) m := rfl
        _ = a :: (tracePagesAux (a + 1) k
              ++ (a + 1 + (k : Int)) :: tracePagesAux (a + 1 + (k : Int) + 1)
                (m - k - 1)) := by rw [hrec]
        _ = tracePagesAux a (k + 1)
              ++ (a + ((k + 1 : Nat) : Int))
                :: tracePagesAux (a + ((k + 1 : Nat) : Int) + 1)
                  (m + 1 - (k + 1) - 1) := by
              rw [hm, hc1]
              rfl

theorem tracePages_split (a b q : Int) (h1 : a ≤ q) (h2 : q ≤ b) :
    tracePages a b = tracePages a (q - 1) ++ q :: tracePages (q + 1) b := by
  rw [tracePages, tracePages, tracePages]
  have hk : (q - 1 + 1 - a).toNat < (b + 1 - a).toNat := by omega
  rw [tracePagesAux_split ((q - 1 + 1 - a).toNat) ((b + 1 - a).toNat) a hk]
  have e1 : a + (((q - 1 + 1 - a).toNat : Nat) : Int) = q := by omega
  have e2 : (b + 1 - a).toNat - (q - 1 + 1 - a).toNat - 1
      = (b + 1 - (q + 1)).toNat := by omega
  rw [e1, e2]

/-- C7: a single page's failure is local: even when page `q` fails
(`fetch_page_data` returns `None` — bad JSON or any exception), the
loop still visits the whole range `[a..b]`, and the final output is
exactly the records of the pages before `q` followed by the records of
the pages after `q` — everything collected from other pages is
retained, and the failing page contributes nothing. -/
theorem c7_page_failure_is_local (fetch : Int → Option (List Rec))
    (a b q : Int) (h1 : a ≤ q) (h2 : q ≤ b) (hf : fetch q = none) :
    (scrape_pages fetch a b).1 = tracePages a b ∧
    (scrape_pages fetch a b).2
      = pagesRecords fetch (tracePages a (q - 1))
        ++ pagesRecords fetch (tracePages (q + 1) b) := by
  refine ⟨scrapeLoop_trace fetch _ a, ?_⟩
  rw [scrape_pages, scrapeLoop_records fetch _ a, scrapeLoop_trace fetch _ a]
  show pagesRecords fetch (tracePages a b) = _
  rw [tracePages_split a b q h1 h2, pagesRecords_append]
  simp only [pagesRecords, hf, Option.getD_none, List.nil_append]

/-- Witness for C7 over pages 1–3 with page 2 failing. -/
theorem c7_witness :
    ((1 : Int) ≤ 2) ∧ ((2 : Int) ≤ 3) ∧
    ((fun p : Int => if p = 2 then none else some [[("rank", "1")]]) 2
      = (none : Option (List Rec))) ∧
    ((scrape_pages (fun p => if p = 2 then none else some [[("rank", "1")]])
        1 3).1 = tracePages 1 3 ∧
      (scrape_pages (fun p => if p = 2 then none else some [[("rank", "1")]])
          1 3).2
        = pagesRecords (fun p => if p = 2 then none else some [[("rank", "1")]])
            (tracePages 1 (2 - 1))
          ++ pagesRecords (fun p => if p = 2 then none else some [[("rank", "1")]])
            (tracePages (2 + 1) 3)) :=
  ⟨by decide, by decide, by decide,
    c7_page_failure_is_local (fun p => if p = 2 then none else some [[("rank", "1")]])
      1 3 2 (by decide) (by decide) (by decide)⟩

/-- C8 counterexample: for `min_page = 2 > 1 = max_page`,
`scrape_pages` performs no fetch (empty trace) and completes normally,
returning the ordinary empty accumulation — the empty-input branch that
prints "No data collected" and returns an empty DataFrame — rather
than signalling a configuration error to the caller. -/
theorem c8_counterexample :
    scrape_pages (fun _ => some [[("rank", "1")]]) 2 1 = ([], []) := by
  decide

/-- C8 amended: an inverted range (`max_page < min_page`) is not
treated as an error: `range(min_page, max_page + 1)` is empty, so the
collector performs no page fetch and completes normally with an empty
trace and an empty record list. -/
theorem c8_amended_empty_range_completes (fetch : Int → Option (List Rec))
    (a b : Int) (h : b < a) :
    scrape_pages fetch a b = ([], []) := by
  rw [scrape_pages]
  have h0 : (b + 1 - a).toNat = 0 := by omega
  rw [h0]
  rfl

/-- Witness for the amended C8 at `min_page = 2`, `max_page = 1`. -/
theorem c8_amended_witness :
    ((1 : Int) < 2) ∧
    scrape_pages (fun _ => some [[("rank", "1")]]) 2 1 = ([], []) :=
  ⟨by decide,
    c8_amended_empty_range_completes (fun _ => some [[("rank", "1")]]) 2 1
      (by decide)⟩
